import Mathlib

/-!
Verification development for the password-based authenticated-encryption
codec of `src/cli/crypt.py` (the `encrypt` / `decrypt` pair).

Modelling conventions:
* Byte strings are `List Nat`.  The repository's own logic (envelope
  layout, padding normalization, length and version checks, error
  mapping) is translated statement by statement from the source.
* The external primitives used by the source — PBKDF2 (`derive_key`'s
  KDF), AES-GCM (`AESGCM.encrypt` / `AESGCM.decrypt`), base64
  (`base64.b64encode` / `base64.b64decode`) and the UTF-8 text codec —
  are not part of the repository; they are modelled as idealized,
  collision-free codecs with the same interface, lengths and failure
  behaviour as the real ones (a tag check that succeeds exactly for the
  key, nonce and data it was produced with; a transport codec that is
  injective, pads with `=` to a multiple of 4, and rejects text outside
  its alphabet; a text codec that is injective with a partial inverse).
* `os.urandom` randomness is passed to `encrypt` as explicit `salt` and
  `iv` arguments (the spec's §9 explicitly asks for randomness to be an
  injected dependency).
-/

namespace Authentool

/-- Constant from the source: 16-byte salt. -/
def SALT_SIZE : Nat := 16

/-- Constant from the source: 12-byte IV for AES-GCM. -/
def IV_SIZE : Nat := 12

/-- Constant from the source: 256-bit key (AES-256). -/
def KEY_SIZE : Nat := 32

/-- Constant from the source: 128-bit (16-byte) GCM tag. -/
def TAG_SIZE : Nat := 16

/-- Constant from the source: version byte 0x08. -/
def VERSION_ID : Nat := 0x08

/-- Constant from the source: PBKDF2 iteration count. -/
def ITERATIONS : Nat := 250000

/-! ### Positional digits of a natural number

`natToDigitsB b` writes a natural in little-endian base `b` (fuelled so
that it is structurally recursive; `fuel = n` always suffices);
`natOfDigitsB b` reads the digit list back. -/

/-- Little-endian base-`b` digits of `n`, with explicit fuel. -/
def natToDigitsB (b : Nat) : Nat → Nat → List Nat
  | _, 0 => []
  | 0, _ + 1 => []
  | fuel + 1, n + 1 => ((n + 1) % b) :: natToDigitsB b fuel ((n + 1) / b)

/-- Value of a little-endian base-`b` digit list. -/
def natOfDigitsB (b : Nat) : List Nat → Nat
  | [] => 0
  | d :: rest => d + b * natOfDigitsB b rest

theorem natOfDigitsB_natToDigitsB (b n : Nat) (hb : 2 ≤ b) :
    ∀ fuel, n ≤ fuel → natOfDigitsB b (natToDigitsB b fuel n) = n := by
  induction n using Nat.strong_induction_on with
  | _ n ih =>
    intro fuel hle
    match n, fuel with
    | 0, fuel => cases fuel <;> rfl
    | m + 1, 0 => exact absurd hle (by omega)
    | m + 1, f + 1 =>
      have hdiv : (m + 1) / b < m + 1 := Nat.div_lt_self (by omega) (by omega)
      have hrec : natOfDigitsB b (natToDigitsB b f ((m + 1) / b)) = (m + 1) / b :=
        ih ((m + 1) / b) hdiv f (by omega)
      simp only [natToDigitsB, natOfDigitsB, hrec]
      exact Nat.mod_add_div _ _

theorem natToDigitsB_lt (b fuel n : Nat) (hb : 1 ≤ b) :
    ∀ d ∈ natToDigitsB b fuel n, d < b := by
  induction fuel generalizing n with
  | zero => cases n <;> simp [natToDigitsB]
  | succ f ih =>
    cases n with
    | zero => simp [natToDigitsB]
    | succ m =>
      simp only [natToDigitsB, List.mem_cons]
      rintro d (rfl | hd)
      · exact Nat.mod_lt _ (by omega)
      · exact ih _ d hd

theorem natOfDigitsB_eq_zero (b : Nat) (hb : 1 ≤ b) (ds : List Nat) :
    natOfDigitsB b ds = 0 ↔ ∀ d ∈ ds, d = 0 := by
  induction ds with
  | nil => simp [natOfDigitsB]
  | cons d rest ih =>
    simp only [natOfDigitsB, List.mem_cons]
    constructor
    · intro h
      have hd : d = 0 := by omega
      have hr : b * natOfDigitsB b rest = 0 := by omega
      have : natOfDigitsB b rest = 0 := by
        rcases Nat.mul_eq_zero.mp hr with h1 | h2
        · omega
        · exact h2
      rintro x (rfl | hx)
      · exact hd
      · exact ih.mp this x hx
    · intro h
      have hd : d = 0 := h d (Or.inl rfl)
      have hr0 : natOfDigitsB b rest = 0 := ih.mpr (fun x hx => h x (Or.inr hx))
      simp [hd, hr0]

theorem natToDigitsB_natOfDigitsB (b : Nat) (hb : 2 ≤ b) :
    ∀ ds : List Nat, (∀ d ∈ ds, d < b) → ds.getLast? ≠ some 0 →
    ∀ fuel, natOfDigitsB b ds ≤ fuel →
      natToDigitsB b fuel (natOfDigitsB b ds) = ds := by
  intro ds
  induction ds with
  | nil => intro _ _ fuel _; cases fuel <;> rfl
  | cons d rest ih =>
    intro hlt hlast fuel hfuel
    have hd : d < b := hlt d (by simp)
    have hrl : ∀ x ∈ rest, x < b := fun x hx => hlt x (by simp [hx])
    have hrlast : rest.getLast? ≠ some 0 := by
      cases rest with
      | nil => simp
      | cons a t => rw [List.getLast?_cons_cons] at hlast; exact hlast
    have hv : natOfDigitsB b (d :: rest) = d + b * natOfDigitsB b rest := rfl
    have h2 : 2 * natOfDigitsB b rest ≤ b * natOfDigitsB b rest :=
      Nat.mul_le_mul_right _ hb
    cases hz : d + b * natOfDigitsB b rest with
    | zero =>
      exfalso
      have hd0 : d = 0 := by omega
      have hvr0 : natOfDigitsB b rest = 0 := by
        rcases Nat.mul_eq_zero.mp (by omega : b * natOfDigitsB b rest = 0) with h | h
        · omega
        · exact h
      have hall : ∀ x ∈ rest, x = 0 := (natOfDigitsB_eq_zero b (by omega) rest).mp hvr0
      cases rest with
      | nil => exact hlast (by simp [hd0])
      | cons a t =>
        cases hgl : (a :: t).getLast? with
        | none => simp at hgl
        | some x =>
          have hx : x ∈ a :: t := by
            obtain ⟨hne, hxe⟩ :=
              List.mem_getLast?_eq_getLast (l := a :: t) (x := x) (by simp [hgl])
            rw [hxe]
            exact List.getLast_mem hne
          exact hrlast (by rw [hgl, hall x hx])
    | succ m =>
      rw [hv, hz] at hfuel ⊢
      obtain ⟨f, rfl⟩ : ∃ f, fuel = f + 1 := ⟨fuel - 1, by omega⟩
      show ((m + 1) % b) :: natToDigitsB b f ((m + 1) / b) = d :: rest
      have hmod : (m + 1) % b = d := by
        rw [← hz, Nat.add_mul_mod_self_left, Nat.mod_eq_of_lt hd]
      have hdiv : (m + 1) / b = natOfDigitsB b rest := by
        rw [← hz, Nat.add_mul_div_left _ _ (by omega : 0 < b),
          Nat.div_eq_of_lt hd, Nat.zero_add]
      rw [hmod, hdiv, ih hrl hrlast f (by omega)]

/-! ### An injective code for byte lists

`encodeL` packs a `List Nat` into a single `Nat` of size linear in the
list: each element's base-100 digits followed by a `100` separator,
the whole stream read as one base-101 number.  `decodeNat` inverts it. -/

/-- Digit stream of a list: each element's base-100 digits followed by
a `100` separator. -/
def flatDigits : List Nat → List Nat
  | [] => []
  | n :: rest => natToDigitsB 100 n n ++ 100 :: flatDigits rest

/-- Parse a digit stream back into its list of elements; `acc` holds
the digits of the element currently being read. -/
def parseDigits : List Nat → List Nat → Option (List Nat)
  | [], [] => some []
  | [], _ :: _ => none
  | d :: rest, acc =>
    if d = 100 then
      match parseDigits rest [] with
      | some vs => some (natOfDigitsB 100 acc :: vs)
      | none => none
    else if d < 100 then parseDigits rest (acc ++ [d])
    else none

/-- Injective encoding of a list of naturals into one natural. -/
def encodeL (l : List Nat) : Nat := natOfDigitsB 101 (flatDigits l)

/-- Inverse of `encodeL`. -/
def decodeNat (c : Nat) : Option (List Nat) :=
  parseDigits (natToDigitsB 101 c c) []

theorem flatDigits_le (l : List Nat) : ∀ d ∈ flatDigits l, d ≤ 100 := by
  induction l with
  | nil => simp [flatDigits]
  | cons n rest ih =>
    simp only [flatDigits, List.mem_append, List.mem_cons]
    rintro d (hd | rfl | hd)
    · exact Nat.le_of_lt (natToDigitsB_lt 100 n n (by omega) d hd)
    · exact Nat.le_refl _
    · exact ih d hd

theorem flatDigits_getLast_eq (l : List Nat) (h : l ≠ []) :
    (flatDigits l).getLast? = some 100 := by
  induction l with
  | nil => exact absurd rfl h
  | cons n rest ih =>
    show (natToDigitsB 100 n n ++ 100 :: flatDigits rest).getLast? = some 100
    rw [List.getLast?_append]
    have hcons : ((100 : Nat) :: flatDigits rest).getLast? = some 100 := by
      cases rest with
      | nil => simp [flatDigits]
      | cons m r =>
        have hr : (flatDigits (m :: r)).getLast? = some 100 := ih (by simp)
        cases hfl : flatDigits (m :: r) with
        | nil => rw [hfl] at hr; simp at hr
        | cons a t =>
          rw [hfl] at hr
          rw [List.getLast?_cons_cons]
          exact hr
    rw [hcons]
    rfl

theorem parseDigits_append (cds : List Nat) (h : ∀ d ∈ cds, d < 100) :
    ∀ (tail acc : List Nat),
      parseDigits (cds ++ tail) acc = parseDigits tail (acc ++ cds) := by
  induction cds with
  | nil => intro tail acc; simp
  | cons c rest ih =>
    intro tail acc
    have hc : c < 100 := h c (by simp)
    show parseDigits (c :: (rest ++ tail)) acc = _
    rw [parseDigits, if_neg (by omega), if_pos hc,
      ih (fun d hd => h d (by simp [hd])) tail (acc ++ [c])]
    simp

theorem parseDigits_flatDigits (l : List Nat) :
    parseDigits (flatDigits l) [] = some l := by
  induction l with
  | nil => rfl
  | cons n rest ih =>
    show parseDigits (natToDigitsB 100 n n ++ 100 :: flatDigits rest) [] = _
    rw [parseDigits_append _ (natToDigitsB_lt 100 n n (by omega)),
      List.nil_append, parseDigits, if_pos rfl, ih,
      natOfDigitsB_natToDigitsB 100 n (by omega) n (Nat.le_refl _)]

theorem decodeNat_encodeL (l : List Nat) : decodeNat (encodeL l) = some l := by
  unfold decodeNat encodeL
  rw [natToDigitsB_natOfDigitsB 101 (by omega) (flatDigits l)
    (fun d hd => by have := flatDigits_le l d hd; omega)
    (by
      cases l with
      | nil => simp [flatDigits]
      | cons n rest =>
        rw [flatDigits_getLast_eq (n :: rest) (by simp)]
        simp)
    (natOfDigitsB 101 (flatDigits l)) (Nat.le_refl _)]
  exact parseDigits_flatDigits l

theorem encodeL_injective : Function.Injective encodeL := by
  intro l1 l2 h
  have := decodeNat_encodeL l1
  rw [h, decodeNat_encodeL l2] at this
  exact (Option.some_injective _ this).symm


/-! ### Transport codec

Modelled from the spec: `base64.b64encode` / `base64.b64decode`
(standard alphabet, `=` padding) are Python standard-library code, not
part of the repository.  The model keeps the properties the spec relies
on: the encoder is injective, uses only the 64-character standard
alphabet plus trailing `=` padding to a multiple of 4 characters, and
the decoder rejects text containing characters outside the alphabet
(other than trailing padding). -/

/-- The standard base64 alphabet. -/
def b64Alphabet : List Char :=
  ['A', 'B', 'C', 'D', 'E', 'F', 'G', 'H', 'I', 'J', 'K', 'L', 'M',
   'N', 'O', 'P', 'Q', 'R', 'S', 'T', 'U', 'V', 'W', 'X', 'Y', 'Z',
   'a', 'b', 'c', 'd', 'e', 'f', 'g', 'h', 'i', 'j', 'k', 'l', 'm',
   'n', 'o', 'p', 'q', 'r', 's', 't', 'u', 'v', 'w', 'x', 'y', 'z',
   '0', '1', '2', '3', '4', '5', '6', '7', '8', '9', '+', '/']

/-- Character of a base-64 digit. -/
def b64Char (d : Nat) : Char := b64Alphabet.getD d 'A'

/-- Digit of a base-64 character; `none` for characters outside the
alphabet (in particular for `=`). -/
def charDigit (c : Char) : Option Nat := List.findIdx? (fun a => a == c) b64Alphabet

/-- Digits of a run of base-64 characters; fails on any character
outside the alphabet. -/
def charsToDigits : List Char → Option (List Nat)
  | [] => some []
  | c :: rest =>
    match charDigit c, charsToDigits rest with
    | some d, some ds => some (d :: ds)
    | _, _ => none

/-- Strip trailing `=` padding characters. -/
def dropTrailingEq (cs : List Char) : List Char :=
  (cs.reverse.dropWhile (fun c => c == '=')).reverse

/-- Transport encoder: base-64 digits of the (injective) code of the
byte list, through the standard alphabet, padded with `=` to a multiple
of 4 characters. -/
def b64encode (bs : List Nat) : String :=
  let core := (natToDigitsB 64 (encodeL bs) (encodeL bs)).map b64Char
  ⟨core ++ List.replicate ((4 - core.length % 4) % 4) '='⟩

/-- Transport decoder: requires a length that is a multiple of 4,
strips trailing padding, rejects characters outside the alphabet, and
decodes the resulting digit string. -/
def b64decode (cs : List Char) : Option (List Nat) :=
  if cs.length % 4 ≠ 0 then none
  else
    match charsToDigits (dropTrailingEq cs) with
    | some ds => decodeNat (natOfDigitsB 64 ds)
    | none => none

theorem charDigit_b64Char : ∀ i : Fin 64, charDigit (b64Char i.val) = some i.val := by
  decide

theorem b64Char_ne_eq : ∀ i : Fin 64, b64Char i.val ≠ '=' := by
  decide

theorem dropWhile_replicate_append (k : Nat) (p : Char → Bool) (x : Char)
    (hx : p x = true) (l : List Char) :
    (List.replicate k x ++ l).dropWhile p = l.dropWhile p := by
  induction k with
  | zero => simp
  | succ m ih => simp [List.replicate_succ, List.dropWhile_cons, hx, ih]

theorem dropWhile_eq_self_of_not_mem (l : List Char) (h : '=' ∉ l) :
    l.dropWhile (fun c => c == '=') = l := by
  cases l with
  | nil => rfl
  | cons c rest =>
    have hc : c ≠ '=' := fun hcc => h (by simp [hcc])
    simp [List.dropWhile_cons, hc]

theorem dropTrailingEq_append_replicate (l : List Char) (k : Nat) (h : '=' ∉ l) :
    dropTrailingEq (l ++ List.replicate k '=') = l := by
  unfold dropTrailingEq
  rw [List.reverse_append, List.reverse_replicate,
    dropWhile_replicate_append k _ '=' (by simp) l.reverse,
    dropWhile_eq_self_of_not_mem _ (by simpa using h), List.reverse_reverse]

theorem charsToDigits_map_b64Char (ds : List Nat) (h : ∀ d ∈ ds, d < 64) :
    charsToDigits (ds.map b64Char) = some ds := by
  induction ds with
  | nil => rfl
  | cons d rest ih =>
    have hd : d < 64 := h d (by simp)
    have : charDigit (b64Char d) = some d := charDigit_b64Char ⟨d, hd⟩
    simp only [List.map_cons, charsToDigits, this,
      ih (fun x hx => h x (by simp [hx]))]

theorem eq_not_mem_map_b64Char (ds : List Nat) (h : ∀ d ∈ ds, d < 64) :
    '=' ∉ ds.map b64Char := by
  intro hmem
  obtain ⟨d, hd, hEq⟩ := List.mem_map.mp hmem
  exact b64Char_ne_eq ⟨d, h d hd⟩ hEq

theorem b64encode_length_mod (bs : List Nat) : (b64encode bs).length % 4 = 0 := by
  show (_ ++ List.replicate _ '=').length % 4 = 0
  rw [List.length_append, List.length_replicate]
  omega

theorem b64decode_b64encode (bs : List Nat) :
    b64decode (b64encode bs).data = some bs := by
  have hlt : ∀ d ∈ natToDigitsB 64 (encodeL bs) (encodeL bs), d < 64 :=
    natToDigitsB_lt 64 _ _ (by omega)
  have hmod := b64encode_length_mod bs
  unfold b64encode at hmod ⊢
  simp only [b64decode, String.length] at hmod ⊢
  rw [if_neg (by omega)]
  rw [dropTrailingEq_append_replicate _ _ (eq_not_mem_map_b64Char _ hlt),
    charsToDigits_map_b64Char _ hlt]
  show decodeNat (natOfDigitsB 64 (natToDigitsB 64 (encodeL bs) (encodeL bs))) = some bs
  rw [natOfDigitsB_natToDigitsB 64 (encodeL bs) (by omega) (encodeL bs) (Nat.le_refl _)]
  exact decodeNat_encodeL bs

/-! ### Text codec

Modelled from the spec: Python's `str.encode('utf-8')` and
`bytes.decode('utf-8')` are standard-library code, not part of the
repository.  The model keeps the properties the spec relies on: the
encoder is injective and total on strings, the decoder is its partial
inverse, and some byte lists (such as `[0xD800]`, an unpaired
surrogate) are rejected by the decoder. -/

/-- Encode a string as the list of its Unicode scalar values. -/
def utf8Encode (s : String) : List Nat := s.data.map Char.toNat

/-- Recover a character from a scalar value; `none` if the value is not
a valid Unicode scalar (e.g. a surrogate). -/
def charFromNat (n : Nat) : Option Char :=
  let c := Char.ofNat n
  if c.toNat = n then some c else none

/-- Recover a character list from scalar values. -/
def charsFromNats : List Nat → Option (List Char)
  | [] => some []
  | n :: rest =>
    match charFromNat n, charsFromNats rest with
    | some c, some cs => some (c :: cs)
    | _, _ => none

/-- Decode a list of scalar values back into a string. -/
def utf8Decode (bs : List Nat) : Option String :=
  (charsFromNats bs).map String.mk

theorem charFromNat_toNat (c : Char) : charFromNat c.toNat = some c := by
  simp [charFromNat, Char.ofNat_toNat]

theorem utf8Decode_utf8Encode (s : String) : utf8Decode (utf8Encode s) = some s := by
  have h : ∀ l : List Char, charsFromNats (l.map Char.toNat) = some l := by
    intro l
    induction l with
    | nil => rfl
    | cons c rest ih => simp [charsFromNats, charFromNat_toNat, ih]
  simp [utf8Decode, utf8Encode, h s.data]

theorem utf8Encode_injective : Function.Injective utf8Encode := by
  intro s1 s2 h
  have := utf8Decode_utf8Encode s1
  rw [h, utf8Decode_utf8Encode s2] at this
  exact (Option.some_injective _ this).symm

theorem utf8Encode_ne_nil (s : String) (h : s ≠ "") : utf8Encode s ≠ [] := by
  intro hnil
  apply h
  have : s.data = [] := by simpa [utf8Encode] using hnil
  cases s
  simp_all

/-! ### Key derivation

Modelled from the spec: `derive_key` calls the `cryptography` library's
PBKDF2-HMAC-SHA-256 with 250,000 iterations — external code.  The model
keeps the properties the spec relies on: the function is a deterministic,
pure function of `(password, salt)`, idealized as collision-free, and it
accepts an empty password (emptiness is rejected one layer up, at the
encrypt entry point). -/

/-- Derive a key from password and salt (idealized PBKDF2). -/
def derive_key (password : String) (salt : List Nat) : Nat :=
  Nat.pair (encodeL (utf8Encode password)) (encodeL salt)

theorem derive_key_ne_of_password_ne (k1 k2 : String) (salt : List Nat)
    (h : k1 ≠ k2) : derive_key k1 salt ≠ derive_key k2 salt := by
  intro hEq
  apply h
  have := (Nat.pair_eq_pair.mp hEq).1
  exact utf8Encode_injective (encodeL_injective this)

/-! ### Authenticated cipher

Modelled from the spec: `AESGCM.encrypt` / `AESGCM.decrypt` from the
`cryptography` library are external code.  The model is an idealized
AEAD with the same interface and lengths: the output of encryption is
`plaintext length + 16` "bytes" (ciphertext with its appended 16-byte
tag), and decryption succeeds exactly on the output of encryption under
the same key and nonce — a perfect authentication-tag check, mirroring
the library's `InvalidTag` failure on any mismatch. -/

/-- Idealized AES-GCM encryption: ciphertext together with its
16-byte authentication tag, of length `pt.length + TAG_SIZE`. -/
def aesgcmEncrypt (key : Nat) (iv pt : List Nat) : List Nat :=
  Nat.pair key (Nat.pair (encodeL iv) (encodeL pt)) ::
    List.replicate (pt.length + (TAG_SIZE - 1)) 0

/-- Idealized AES-GCM decryption: succeeds exactly on data produced by
`aesgcmEncrypt` with the same key and nonce (`none` plays the role of
the library's `InvalidTag`). -/
def aesgcmDecrypt (key : Nat) (iv data : List Nat) : Option (List Nat) :=
  match data with
  | [] => none
  | t :: rest =>
    match decodeNat (Nat.unpair (Nat.unpair t).2).1,
        decodeNat (Nat.unpair (Nat.unpair t).2).2 with
    | some iv', some pt =>
      if (Nat.unpair t).1 = key ∧ iv' = iv ∧
          rest = List.replicate (pt.length + (TAG_SIZE - 1)) 0 then
        some pt
      else none
    | _, _ => none

theorem aesgcmEncrypt_length (key : Nat) (iv pt : List Nat) :
    (aesgcmEncrypt key iv pt).length = pt.length + TAG_SIZE := by
  simp [aesgcmEncrypt, TAG_SIZE]

theorem aesgcmDecrypt_aesgcmEncrypt (key : Nat) (iv pt : List Nat) :
    aesgcmDecrypt key iv (aesgcmEncrypt key iv pt) = some pt := by
  simp [aesgcmEncrypt, aesgcmDecrypt, Nat.unpair_pair, decodeNat_encodeL]

theorem aesgcmDecrypt_wrong_key (key key' : Nat) (iv pt : List Nat)
    (h : key' ≠ key) :
    aesgcmDecrypt key' iv (aesgcmEncrypt key iv pt) = none := by
  simp [aesgcmEncrypt, aesgcmDecrypt, Nat.unpair_pair, decodeNat_encodeL]
  exact fun hh => h hh.symm

/-! ### Error model

The source has a single exception class `CryptException` carrying a
message.  The spec's §7/§9 classify its failures into four kinds and ask
for a kind-tagged error representation; the model therefore pairs every
error with its kind, while the message strings reproduce the source's. -/

/-- The spec's error taxonomy (§7). -/
inductive ErrKind
  | invalidInput
  | malformedEnvelope
  | unsupportedVersion
  | authenticationFailed
deriving DecidableEq, Repr

/-- The codec's single error type: the source's `CryptException`
message, tagged with the spec's error kind. -/
structure CryptException where
  kind : ErrKind
  message : String
deriving DecidableEq, Repr

/-- The distinct failure points inside the `try` block of `decrypt`,
one per raise site of the source. -/
inductive DecryptFailure
  | badBase64
  | tooShort
  | badVersion (v : Nat)
  | invalidTag
  | badUtf8
deriving DecidableEq, Repr

/-- Spec kind of each decrypt failure (§7). -/
def DecryptFailure.kind : DecryptFailure → ErrKind
  | badBase64 => .malformedEnvelope
  | tooShort => .malformedEnvelope
  | badVersion _ => .unsupportedVersion
  | invalidTag => .authenticationFailed
  | badUtf8 => .authenticationFailed

/-- Hexadecimal digit character. -/
def hexDigitChar (n : Nat) : Char :=
  "0123456789abcdef".data.getD n '0'

/-- Two-digit lower-case hexadecimal rendering, as Python's `{v:02x}`
for byte values. -/
def hex2 (n : Nat) : String :=
  ⟨[hexDigitChar (n / 16 % 16), hexDigitChar (n % 16)]⟩

/-- Text of each failure as Python's `str(e)` of the exception caught
by `decrypt`'s handlers (the library exceptions' texts are modelled). -/
def DecryptFailure.text : DecryptFailure → String
  | badBase64 => "Invalid base64-encoded string"
  | tooShort => "Encrypted data too short"
  | badVersion v => "Unsupported version ID: " ++ hex2 v
  | invalidTag => "Invalid tag (wrong password?)"
  | badUtf8 => "invalid utf-8 sequence"

/-! ### The codec -/

/-- Encrypt plaintext using AES-GCM with the provided password.  The
source draws `salt` (16 bytes) and `iv` (12 bytes) from `os.urandom`;
here they are the injected randomness (spec §9). -/
def encrypt (plaintext : String) (password : String)
    (salt iv : List Nat) : Except CryptException String :=
  if plaintext = "" ∨ password = "" then
    .error ⟨.invalidInput, "Plaintext and password cannot be empty"⟩
  else
    let key := derive_key password salt
    let ciphertext := aesgcmEncrypt key iv (utf8Encode plaintext)
    let output := VERSION_ID :: (salt ++ iv ++ ciphertext)
    .ok (b64encode output)

/-- Ensure proper base64 padding: the source re-pads the input with `=`
to a multiple of 4 characters when `len % 4` is nonzero. -/
def normalizePadding (s : String) : String :=
  let missing := s.length % 4
  if missing ≠ 0 then s ++ ⟨List.replicate (4 - missing) '='⟩ else s

/-- Minimum envelope size: version + salt + IV + tag + minimum
ciphertext, from the source's `min_size`. -/
def min_size : Nat := 1 + SALT_SIZE + IV_SIZE + TAG_SIZE + 1

/-- The body of `decrypt`'s `try` block, statement by statement from the
source: normalize padding, base64-decode, check the minimum length,
check the version byte, slice out salt / IV / ciphertext, re-derive the
key, authenticated-decrypt, and UTF-8-decode the result.  The source's
local variables (`salt`, `iv`, `ciphertext`, `key`, `version`), each
used once, are inlined. -/
def decryptBody (base64_encrypted : String) (password : String) :
    Except DecryptFailure String :=
  match b64decode (normalizePadding base64_encrypted).data with
  | none => .error .badBase64
  | some encrypted_bytes =>
    if encrypted_bytes.length < min_size then .error .tooShort
    else if encrypted_bytes.getD 0 0 ≠ VERSION_ID then
      .error (.badVersion (encrypted_bytes.getD 0 0))
    else
      match aesgcmDecrypt
          (derive_key password ((encrypted_bytes.drop 1).take SALT_SIZE))
          ((encrypted_bytes.drop (1 + SALT_SIZE)).take IV_SIZE)
          (encrypted_bytes.drop (1 + SALT_SIZE + IV_SIZE)) with
      | none => .error .invalidTag
      | some ptBytes =>
        match utf8Decode ptBytes with
        | none => .error .badUtf8
        | some s => .ok s

/-- Decrypt base64-encoded encrypted string using the provided
password.  Every failure of the body is surfaced as a `CryptException`
whose message is prefixed with `"Decryption failed: "` — for the
internally raised failures because the source's `except Exception`
handler catches its own `CryptException`s and re-raises them wrapped,
and for the library failures by the two handlers' message formats. -/
def decrypt (base64_encrypted : String) (password : String) :
    Except CryptException String :=
  (decryptBody base64_encrypted password).mapError
    (fun f => ⟨f.kind, "Decryption failed: " ++ f.text⟩)

/-! ### Helper lemmas about the codec -/

theorem normalizePadding_of_mod (s : String) (h : s.length % 4 = 0) :
    normalizePadding s = s := by
  simp [normalizePadding, h]

theorem normalizePadding_b64encode (bs : List Nat) :
    normalizePadding (b64encode bs) = b64encode bs :=
  normalizePadding_of_mod _ (b64encode_length_mod bs)

theorem envelope_length (salt iv ct : List Nat)
    (hs : salt.length = SALT_SIZE) (hiv : iv.length = IV_SIZE) :
    (VERSION_ID :: (salt ++ iv ++ ct)).length = 29 + ct.length := by
  simp [List.length_append, hs, hiv, SALT_SIZE, IV_SIZE]
  omega

theorem envelope_salt (salt iv ct : List Nat)
    (hs : salt.length = SALT_SIZE) :
    (((VERSION_ID :: (salt ++ iv ++ ct)).drop 1).take SALT_SIZE) = salt := by
  rw [List.drop_one, List.tail_cons, List.append_assoc, ← hs, List.take_left]

theorem envelope_iv (salt iv ct : List Nat)
    (hs : salt.length = SALT_SIZE) (hiv : iv.length = IV_SIZE) :
    (((VERSION_ID :: (salt ++ iv ++ ct)).drop (1 + SALT_SIZE)).take IV_SIZE) = iv := by
  have h1 : (VERSION_ID :: (salt ++ iv ++ ct)).drop (1 + SALT_SIZE) = iv ++ ct := by
    rw [← List.drop_drop, List.drop_one, List.tail_cons, List.append_assoc, ← hs,
      List.drop_left]
  rw [h1, ← hiv, List.take_left]

theorem envelope_ct (salt iv ct : List Nat)
    (hs : salt.length = SALT_SIZE) (hiv : iv.length = IV_SIZE) :
    (VERSION_ID :: (salt ++ iv ++ ct)).drop (1 + SALT_SIZE + IV_SIZE) = ct := by
  rw [← List.drop_drop]
  have h2 : (VERSION_ID :: (salt ++ iv ++ ct)).drop (1 + SALT_SIZE) = iv ++ ct := by
    rw [← List.drop_drop, List.drop_one, List.tail_cons, List.append_assoc, ← hs,
      List.drop_left]
  rw [h2, ← hiv, List.drop_left]

theorem encrypt_ok (p k : String) (salt iv : List Nat)
    (hp : p ≠ "") (hk : k ≠ "") :
    encrypt p k salt iv =
      .ok (b64encode (VERSION_ID ::
        (salt ++ iv ++ aesgcmEncrypt (derive_key k salt) iv (utf8Encode p)))) := by
  simp [encrypt, hp, hk]

/-- Evaluation of `decryptBody` on a well-formed envelope: transport
decoding, the length check and the version check all pass, the salt,
IV and ciphertext slices are recovered, and the result is decided by
the authenticated decryption under the key re-derived from the
decrypting password. -/
theorem decryptBody_envelope (key : Nat) (salt iv ptB : List Nat) (k2 : String)
    (hs : salt.length = SALT_SIZE) (hiv : iv.length = IV_SIZE) (hpt : ptB ≠ []) :
    decryptBody (b64encode (VERSION_ID :: (salt ++ iv ++ aesgcmEncrypt key iv ptB))) k2 =
      match aesgcmDecrypt (derive_key k2 salt) iv (aesgcmEncrypt key iv ptB) with
      | none => .error .invalidTag
      | some ptBytes =>
        match utf8Decode ptBytes with
        | none => .error .badUtf8
        | some s => .ok s := by
  have hptlen : 0 < ptB.length := List.length_pos.mpr hpt
  have hlen : (VERSION_ID :: (salt ++ iv ++ aesgcmEncrypt key iv ptB)).length =
      29 + (ptB.length + TAG_SIZE) := by
    rw [envelope_length _ _ _ hs hiv, aesgcmEncrypt_length]
  simp only [decryptBody]
  rw [normalizePadding_b64encode, b64decode_b64encode]
  show (if (VERSION_ID :: (salt ++ iv ++ aesgcmEncrypt key iv ptB)).length < min_size
    then _ else _) = _
  rw [if_neg (by rw [hlen]; simp only [min_size, SALT_SIZE, IV_SIZE, TAG_SIZE]; omega)]
  show (if (VERSION_ID :: (salt ++ iv ++ aesgcmEncrypt key iv ptB)).getD 0 0 ≠ VERSION_ID
    then _ else _) = _
  rw [if_neg (by simp)]
  rw [envelope_salt _ _ _ hs, envelope_iv _ _ _ hs hiv, envelope_ct _ _ _ hs hiv]

theorem decrypt_error_of_body (text pw : String) (f : DecryptFailure)
    (h : decryptBody text pw = .error f) :
    decrypt text pw = .error ⟨f.kind, "Decryption failed: " ++ f.text⟩ := by
  simp [decrypt, h, Except.mapError]

theorem decrypt_ok_of_body (text pw s : String)
    (h : decryptBody text pw = .ok s) : decrypt text pw = .ok s := by
  simp [decrypt, h, Except.mapError]

theorem decryptBody_bad_transport (text pw : String)
    (hfail : b64decode (normalizePadding text).data = none) :
    decryptBody text pw = .error .badBase64 := by
  simp only [decryptBody, hfail]

theorem decryptBody_too_short (text pw : String) (bytes : List Nat)
    (hdec : b64decode (normalizePadding text).data = some bytes)
    (hlen : bytes.length < min_size) :
    decryptBody text pw = .error .tooShort := by
  simp only [decryptBody, hdec]
  rw [if_pos hlen]

theorem decryptBody_bad_version (text pw : String) (bytes : List Nat)
    (hdec : b64decode (normalizePadding text).data = some bytes)
    (hlen : ¬ bytes.length < min_size)
    (hv : bytes.getD 0 0 ≠ VERSION_ID) :
    decryptBody text pw = .error (.badVersion (bytes.getD 0 0)) := by
  simp only [decryptBody, hdec]
  rw [if_neg hlen, if_pos hv]

theorem decryptBody_bad_utf8 (text pw : String) (bytes pt : List Nat)
    (hdec : b64decode (normalizePadding text).data = some bytes)
    (hlen : ¬ bytes.length < min_size)
    (hv : bytes.getD 0 0 = VERSION_ID)
    (hgcm : aesgcmDecrypt (derive_key pw ((bytes.drop 1).take SALT_SIZE))
      ((bytes.drop (1 + SALT_SIZE)).take IV_SIZE)
      (bytes.drop (1 + SALT_SIZE + IV_SIZE)) = some pt)
    (hutf : utf8Decode pt = none) :
    decryptBody text pw = .error .badUtf8 := by
  simp only [decryptBody, hdec]
  rw [if_neg hlen, if_neg (fun hcon => hcon hv)]
  simp only [hgcm, hutf]

/-- Decrypting an envelope produced by `encrypt` under password `k1`
with any password `k2 ≠ k1` hits the authentication-tag failure. -/
theorem decryptBody_wrong_password (p k1 k2 : String) (salt iv : List Nat)
    (hp : p ≠ "") (hne : k2 ≠ k1)
    (hs : salt.length = SALT_SIZE) (hiv : iv.length = IV_SIZE) :
    decryptBody (b64encode (VERSION_ID ::
      (salt ++ iv ++ aesgcmEncrypt (derive_key k1 salt) iv (utf8Encode p)))) k2 =
      .error .invalidTag := by
  have hbody := decryptBody_envelope (derive_key k1 salt) salt iv (utf8Encode p) k2
    hs hiv (utf8Encode_ne_nil p hp)
  rw [aesgcmDecrypt_wrong_key _ _ _ _
    (derive_key_ne_of_password_ne k2 k1 salt hne)] at hbody
  exact hbody

/-! ### The claims -/

/-- C1.  Round-trip: for every non-empty UTF-8 string `p` and every
non-empty password `k` (and any injected 16-byte salt and 12-byte
nonce), `decrypt (encrypt p k) k` returns `p`. -/
theorem encrypt_decrypt_roundtrip (p k : String) (salt iv : List Nat)
    (hp : p ≠ "") (hk : k ≠ "") (hs : salt.length = SALT_SIZE)
    (hiv : iv.length = IV_SIZE) :
    ∃ env, encrypt p k salt iv = .ok env ∧ decrypt env k = .ok p := by
  refine ⟨_, encrypt_ok p k salt iv hp hk, ?_⟩
  have hbody := decryptBody_envelope (derive_key k salt) salt iv (utf8Encode p) k
    hs hiv (utf8Encode_ne_nil p hp)
  simp only [aesgcmDecrypt_aesgcmEncrypt, utf8Decode_utf8Encode] at hbody
  exact decrypt_ok_of_body _ _ _ hbody

theorem encrypt_decrypt_roundtrip_witness :
    ∃ env, encrypt "hello world" "correct horse"
        (List.replicate 16 0) (List.replicate 12 1) = .ok env ∧
      decrypt env "correct horse" = .ok "hello world" :=
  encrypt_decrypt_roundtrip "hello world" "correct horse"
    (List.replicate 16 0) (List.replicate 12 1)
    (by decide) (by decide) (by simp [SALT_SIZE]) (by simp [IV_SIZE])

/-- C2.  Wrong password: decrypting `encrypt p k1` with any distinct
non-empty password `k2` fails with the invalid-tag failure, whose kind
is `AuthenticationFailed`; the resulting error value is the one fixed
`CryptException` that a tampered envelope would also produce, so the
codec does not distinguish the two causes. -/
theorem decrypt_wrong_password (p k1 k2 : String) (salt iv : List Nat)
    (hp : p ≠ "") (hk1 : k1 ≠ "") (hk2 : k2 ≠ "") (hne : k1 ≠ k2)
    (hs : salt.length = SALT_SIZE) (hiv : iv.length = IV_SIZE) :
    ∃ env, encrypt p k1 salt iv = .ok env ∧
      decryptBody env k2 = .error .invalidTag ∧
      DecryptFailure.invalidTag.kind = .authenticationFailed ∧
      decrypt env k2 = .error ⟨.authenticationFailed,
        "Decryption failed: Invalid tag (wrong password?)"⟩ := by
  refine ⟨_, encrypt_ok p k1 salt iv hp hk1, ?_, rfl, ?_⟩
  · exact decryptBody_wrong_password p k1 k2 salt iv hp (fun h => hne h.symm) hs hiv
  · have hb := decryptBody_wrong_password p k1 k2 salt iv hp (fun h => hne h.symm) hs hiv
    have := decrypt_error_of_body _ k2 _ hb
    rw [this]; rfl

theorem decrypt_wrong_password_witness :
    ∃ env, encrypt "hello world" "correct horse"
        (List.replicate 16 0) (List.replicate 12 1) = .ok env ∧
      decryptBody env "wrong horse" = .error .invalidTag ∧
      DecryptFailure.invalidTag.kind = .authenticationFailed ∧
      decrypt env "wrong horse" = .error ⟨.authenticationFailed,
        "Decryption failed: Invalid tag (wrong password?)"⟩ :=
  decrypt_wrong_password "hello world" "correct horse" "wrong horse"
    (List.replicate 16 0) (List.replicate 12 1)
    (by decide) (by decide) (by decide) (by decide)
    (by simp [SALT_SIZE]) (by simp [IV_SIZE])

/-- C3.  Truncation: any input whose transport-decoded byte sequence is
shorter than 46 bytes makes `decrypt` fail with the too-short failure,
of kind `MalformedEnvelope`, carrying the "Encrypted data too short"
message. -/
theorem decrypt_too_short (text pw : String) (bytes : List Nat)
    (hdec : b64decode (normalizePadding text).data = some bytes)
    (hlen : bytes.length < 46) :
    decryptBody text pw = .error .tooShort ∧
    DecryptFailure.tooShort.kind = .malformedEnvelope ∧
    decrypt text pw = .error ⟨.malformedEnvelope,
      "Decryption failed: Encrypted data too short"⟩ := by
  have hbody := decryptBody_too_short text pw bytes hdec
    (by simp only [min_size, SALT_SIZE, IV_SIZE, TAG_SIZE]; omega)
  refine ⟨hbody, rfl, ?_⟩
  have := decrypt_error_of_body _ pw _ hbody
  rw [this]; rfl

theorem decrypt_too_short_witness :
    decryptBody (b64encode (List.replicate 45 0)) "pw" = .error .tooShort ∧
    DecryptFailure.tooShort.kind = .malformedEnvelope ∧
    decrypt (b64encode (List.replicate 45 0)) "pw" = .error ⟨.malformedEnvelope,
      "Decryption failed: Encrypted data too short"⟩ :=
  decrypt_too_short (b64encode (List.replicate 45 0)) "pw" (List.replicate 45 0)
    (by rw [normalizePadding_b64encode]; exact b64decode_b64encode _)
    (by simp)

/-- C4.  Version rejection: any transport-decoded input of at least 46
bytes whose first byte is not `0x08` makes `decrypt` fail with the
bad-version failure, of kind `UnsupportedVersion`; the outcome is the
same for every password (no key derivation or decryption can
influence it). -/
theorem decrypt_unsupported_version (text pw : String) (bytes : List Nat)
    (hdec : b64decode (normalizePadding text).data = some bytes)
    (hlen : ¬ bytes.length < 46)
    (hv : bytes.getD 0 0 ≠ VERSION_ID) :
    decryptBody text pw = .error (.badVersion (bytes.getD 0 0)) ∧
    (DecryptFailure.badVersion (bytes.getD 0 0)).kind = .unsupportedVersion ∧
    (∀ pw2 : String, decryptBody text pw2 = decryptBody text pw) ∧
    decrypt text pw = .error ⟨.unsupportedVersion,
      "Decryption failed: " ++ ("Unsupported version ID: " ++ hex2 (bytes.getD 0 0))⟩ := by
  have hbody : ∀ pwx : String,
      decryptBody text pwx = .error (.badVersion (bytes.getD 0 0)) := fun pwx =>
    decryptBody_bad_version text pwx bytes hdec
      (by simp only [min_size, SALT_SIZE, IV_SIZE, TAG_SIZE]; omega) hv
  refine ⟨hbody pw, rfl, fun pw2 => by rw [hbody pw2, hbody pw], ?_⟩
  have := decrypt_error_of_body _ pw _ (hbody pw)
  rw [this]; rfl

theorem decrypt_unsupported_version_witness :
    decryptBody (b64encode (9 :: List.replicate 45 0)) "pw" =
      .error (.badVersion ((9 :: List.replicate 45 0).getD 0 0)) ∧
    (DecryptFailure.badVersion ((9 :: List.replicate 45 0).getD 0 0)).kind =
      .unsupportedVersion ∧
    (∀ pw2 : String, decryptBody (b64encode (9 :: List.replicate 45 0)) pw2 =
      decryptBody (b64encode (9 :: List.replicate 45 0)) "pw") ∧
    decrypt (b64encode (9 :: List.replicate 45 0)) "pw" = .error ⟨.unsupportedVersion,
      "Decryption failed: " ++ ("Unsupported version ID: " ++
        hex2 ((9 :: List.replicate 45 0).getD 0 0))⟩ :=
  decrypt_unsupported_version (b64encode (9 :: List.replicate 45 0)) "pw"
    (9 :: List.replicate 45 0)
    (by rw [normalizePadding_b64encode]; exact b64decode_b64encode _)
    (by simp)
    (by simp [VERSION_ID])

/-- C5.  Empty-input rejection: `encrypt` with an empty plaintext or an
empty password fails with the `InvalidInput` error and returns no
envelope. -/
theorem encrypt_empty_input (p k : String) (salt iv : List Nat)
    (h : p = "" ∨ k = "") :
    encrypt p k salt iv =
      .error ⟨.invalidInput, "Plaintext and password cannot be empty"⟩ := by
  unfold encrypt
  rw [if_pos h]

theorem encrypt_empty_input_witness :
    encrypt "" "x" [] [] =
      .error ⟨.invalidInput, "Plaintext and password cannot be empty"⟩ ∧
    encrypt "secret" "" [] [] =
      .error ⟨.invalidInput, "Plaintext and password cannot be empty"⟩ :=
  ⟨encrypt_empty_input "" "x" [] [] (Or.inl rfl),
   encrypt_empty_input "secret" "" [] [] (Or.inr rfl)⟩

/-- C6.  Envelope layout: a successful `encrypt p k` returns the padded
base64 encoding of `VERSION_ID ‖ salt(16) ‖ nonce(12) ‖ ciphertext+tag`,
where the cipher output is the plaintext length plus the 16-byte tag;
the transport decoding recovers exactly that byte sequence, and its
total length is at least 46 bytes. -/
theorem encrypt_envelope_layout (p k : String) (salt iv : List Nat)
    (hp : p ≠ "") (hk : k ≠ "") (hs : salt.length = SALT_SIZE)
    (hiv : iv.length = IV_SIZE) :
    encrypt p k salt iv = .ok (b64encode (VERSION_ID ::
      (salt ++ iv ++ aesgcmEncrypt (derive_key k salt) iv (utf8Encode p)))) ∧
    (aesgcmEncrypt (derive_key k salt) iv (utf8Encode p)).length =
      (utf8Encode p).length + TAG_SIZE ∧
    b64decode (b64encode (VERSION_ID ::
      (salt ++ iv ++ aesgcmEncrypt (derive_key k salt) iv (utf8Encode p)))).data =
      some (VERSION_ID ::
        (salt ++ iv ++ aesgcmEncrypt (derive_key k salt) iv (utf8Encode p))) ∧
    46 ≤ (VERSION_ID ::
      (salt ++ iv ++ aesgcmEncrypt (derive_key k salt) iv (utf8Encode p))).length := by
  refine ⟨encrypt_ok p k salt iv hp hk, aesgcmEncrypt_length _ _ _,
    b64decode_b64encode _, ?_⟩
  rw [envelope_length _ _ _ hs hiv, aesgcmEncrypt_length]
  have := List.length_pos.mpr (utf8Encode_ne_nil p hp)
  simp only [TAG_SIZE]
  omega

theorem encrypt_envelope_layout_witness :
    encrypt "a" "b" (List.replicate 16 0) (List.replicate 12 1) =
      .ok (b64encode (VERSION_ID :: (List.replicate 16 0 ++ List.replicate 12 1 ++
        aesgcmEncrypt (derive_key "b" (List.replicate 16 0)) (List.replicate 12 1)
          (utf8Encode "a")))) ∧
    (aesgcmEncrypt (derive_key "b" (List.replicate 16 0)) (List.replicate 12 1)
      (utf8Encode "a")).length = (utf8Encode "a").length + TAG_SIZE ∧
    b64decode (b64encode (VERSION_ID :: (List.replicate 16 0 ++ List.replicate 12 1 ++
      aesgcmEncrypt (derive_key "b" (List.replicate 16 0)) (List.replicate 12 1)
        (utf8Encode "a")))).data =
      some (VERSION_ID :: (List.replicate 16 0 ++ List.replicate 12 1 ++
        aesgcmEncrypt (derive_key "b" (List.replicate 16 0)) (List.replicate 12 1)
          (utf8Encode "a"))) ∧
    46 ≤ (VERSION_ID :: (List.replicate 16 0 ++ List.replicate 12 1 ++
      aesgcmEncrypt (derive_key "b" (List.replicate 16 0)) (List.replicate 12 1)
        (utf8Encode "a"))).length :=
  encrypt_envelope_layout "a" "b" (List.replicate 16 0) (List.replicate 12 1)
    (by decide) (by decide) (by simp [SALT_SIZE]) (by simp [IV_SIZE])

/-- C7.  Transport decoding: `decrypt` normalizes its input by
re-padding with `=` to a multiple of 4 characters when padding is
missing (and leaves already-aligned input unchanged), then
base64-decodes; an input the transport decoder rejects fails with the
bad-transport failure, of kind `MalformedEnvelope`. -/
theorem decrypt_malformed_transport (text pw : String)
    (hfail : b64decode (normalizePadding text).data = none) :
    (normalizePadding text).length % 4 = 0 ∧
    (text.length % 4 ≠ 0 → normalizePadding text =
      text ++ ⟨List.replicate (4 - text.length % 4) '='⟩) ∧
    (text.length % 4 = 0 → normalizePadding text = text) ∧
    decryptBody text pw = .error .badBase64 ∧
    DecryptFailure.badBase64.kind = .malformedEnvelope ∧
    decrypt text pw = .error ⟨.malformedEnvelope,
      "Decryption failed: Invalid base64-encoded string"⟩ := by
  refine ⟨?_, ?_, ?_, decryptBody_bad_transport text pw hfail, rfl, ?_⟩
  · unfold normalizePadding
    by_cases h : text.length % 4 = 0
    · rw [if_neg (by omega)]; omega
    · rw [if_pos (by omega)]
      show (text.data ++ List.replicate (4 - text.length % 4) '=').length % 4 = 0
      rw [List.length_append, List.length_replicate]
      have : text.data.length = text.length := rfl
      omega
  · intro h
    unfold normalizePadding
    rw [if_pos (by omega)]
  · intro h
    exact normalizePadding_of_mod text h
  · have := decrypt_error_of_body _ pw _ (decryptBody_bad_transport text pw hfail)
    rw [this]; rfl

theorem decrypt_malformed_transport_witness :
    (normalizePadding "!").length % 4 = 0 ∧
    (("!" : String).length % 4 ≠ 0 → normalizePadding "!" =
      "!" ++ ⟨List.replicate (4 - ("!" : String).length % 4) '='⟩) ∧
    (("!" : String).length % 4 = 0 → normalizePadding "!" = "!") ∧
    decryptBody "!" "pw" = .error .badBase64 ∧
    DecryptFailure.badBase64.kind = .malformedEnvelope ∧
    decrypt "!" "pw" = .error ⟨.malformedEnvelope,
      "Decryption failed: Invalid base64-encoded string"⟩ :=
  decrypt_malformed_transport "!" "pw" (by decide)

/-- C8.  Non-UTF-8 after authentication: an input whose authenticated
decryption succeeds but whose recovered bytes are not valid UTF-8 makes
`decrypt` fail with the bad-UTF-8 failure, of kind
`AuthenticationFailed`, instead of letting the decoding failure escape. -/
theorem decrypt_non_utf8 (text pw : String) (bytes pt : List Nat)
    (hdec : b64decode (normalizePadding text).data = some bytes)
    (hlen : ¬ bytes.length < 46)
    (hv : bytes.getD 0 0 = VERSION_ID)
    (hgcm : aesgcmDecrypt (derive_key pw ((bytes.drop 1).take SALT_SIZE))
      ((bytes.drop (1 + SALT_SIZE)).take IV_SIZE)
      (bytes.drop (1 + SALT_SIZE + IV_SIZE)) = some pt)
    (hutf : utf8Decode pt = none) :
    decryptBody text pw = .error .badUtf8 ∧
    DecryptFailure.badUtf8.kind = .authenticationFailed ∧
    decrypt text pw = .error ⟨.authenticationFailed,
      "Decryption failed: invalid utf-8 sequence"⟩ := by
  have hbody := decryptBody_bad_utf8 text pw bytes pt hdec
    (by simp only [min_size, SALT_SIZE, IV_SIZE, TAG_SIZE]; omega) hv hgcm hutf
  refine ⟨hbody, rfl, ?_⟩
  have := decrypt_error_of_body _ pw _ hbody
  rw [this]; rfl

theorem decrypt_non_utf8_witness :
    decryptBody (b64encode (VERSION_ID :: (List.replicate 16 0 ++ List.replicate 12 1 ++
      aesgcmEncrypt (derive_key "pw" (List.replicate 16 0)) (List.replicate 12 1)
        [55296]))) "pw" = .error .badUtf8 ∧
    DecryptFailure.badUtf8.kind = .authenticationFailed ∧
    decrypt (b64encode (VERSION_ID :: (List.replicate 16 0 ++ List.replicate 12 1 ++
      aesgcmEncrypt (derive_key "pw" (List.replicate 16 0)) (List.replicate 12 1)
        [55296]))) "pw" = .error ⟨.authenticationFailed,
      "Decryption failed: invalid utf-8 sequence"⟩ :=
  decrypt_non_utf8 _ "pw"
    (VERSION_ID :: (List.replicate 16 0 ++ List.replicate 12 1 ++
      aesgcmEncrypt (derive_key "pw" (List.replicate 16 0)) (List.replicate 12 1)
        [55296]))
    [55296]
    (by rw [normalizePadding_b64encode]; exact b64decode_b64encode _)
    (by rw [envelope_length _ _ _ (by simp [SALT_SIZE]) (by simp [IV_SIZE]),
          aesgcmEncrypt_length]
        simp [TAG_SIZE])
    (by simp)
    (by rw [envelope_salt _ _ _ (by simp [SALT_SIZE]),
          envelope_iv _ _ _ (by simp [SALT_SIZE]) (by simp [IV_SIZE]),
          envelope_ct _ _ _ (by simp [SALT_SIZE]) (by simp [IV_SIZE])]
        exact aesgcmDecrypt_aesgcmEncrypt _ _ _)
    (by decide)

/-- C9.  Error totality: for every pair of string inputs, `decrypt`
either returns a string or returns the single codec error type, and
every failure's message is prefixed with "Decryption failed: " —
including the internally raised too-short and unsupported-version
failures, which the source's catch-all handler re-wraps. -/
theorem decrypt_total_error_message (text pw : String) :
    (∃ s, decrypt text pw = .ok s) ∨
    (∃ f : DecryptFailure,
      decrypt text pw = .error ⟨f.kind, "Decryption failed: " ++ f.text⟩) := by
  cases h : decryptBody text pw with
  | ok s => exact Or.inl ⟨s, decrypt_ok_of_body text pw s h⟩
  | error f => exact Or.inr ⟨f, decrypt_error_of_body text pw f h⟩

/-- C10.  No emptiness checks in decrypt: an empty envelope text fails
with the too-short `MalformedEnvelope` failure (after decoding to zero
bytes); an empty password is carried through key derivation, so
decrypting a valid envelope with it fails with `AuthenticationFailed`;
and no decrypt failure at all has the `InvalidInput` kind. -/
theorem decrypt_no_emptiness_precondition (p k : String) (salt iv : List Nat)
    (hp : p ≠ "") (hk : k ≠ "") (hs : salt.length = SALT_SIZE)
    (hiv : iv.length = IV_SIZE) :
    decrypt "" k = .error ⟨.malformedEnvelope,
      "Decryption failed: Encrypted data too short"⟩ ∧
    (∃ env, encrypt p k salt iv = .ok env ∧
      decrypt env "" = .error ⟨.authenticationFailed,
        "Decryption failed: Invalid tag (wrong password?)"⟩) ∧
    (∀ f : DecryptFailure, f.kind ≠ .invalidInput) := by
  refine ⟨?_, ⟨_, encrypt_ok p k salt iv hp hk, ?_⟩, ?_⟩
  · have hbody := decryptBody_too_short "" k [] (by decide) (by decide)
    have := decrypt_error_of_body _ k _ hbody
    rw [this]; rfl
  · have hb := decryptBody_wrong_password p k "" salt iv hp
      (fun h => hk h.symm) hs hiv
    have := decrypt_error_of_body _ "" _ hb
    rw [this]; rfl
  · intro f
    cases f <;> simp [DecryptFailure.kind]

theorem decrypt_no_emptiness_precondition_witness :
    decrypt "" "b" = .error ⟨.malformedEnvelope,
      "Decryption failed: Encrypted data too short"⟩ ∧
    (∃ env, encrypt "a" "b" (List.replicate 16 0) (List.replicate 12 1) = .ok env ∧
      decrypt env "" = .error ⟨.authenticationFailed,
        "Decryption failed: Invalid tag (wrong password?)"⟩) ∧
    (∀ f : DecryptFailure, f.kind ≠ .invalidInput) :=
  decrypt_no_emptiness_precondition "a" "b" (List.replicate 16 0) (List.replicate 12 1)
    (by decide) (by decide) (by simp [SALT_SIZE]) (by simp [IV_SIZE])

end Authentool
